import Mathlib

/-!
Verification of the momoden password codec.

This file embeds the codec pipeline of the repository in Lean:

* the reversible cipher between a password (a sequence of 6-bit symbols,
  here a `List Nat` of values `< 64`) and a raw symbol buffer
  (`from_password` / `to_password`, from `serialized.rs`);
* the checksum over the raw buffer (`checksum_embed`,
  `checksum_calculated`, `checksum_is_ok`);
* the bit-level packing and unpacking between the buffer and the
  structured game state (`from_savedata` / `to_savedata`);
* the post-decode equipment normalization (`Equipment.normalize`).

Machine integers of the source are modelled as `Nat` with explicit
`% 64` / `% 256` where wrap-around matters.  Bounded integer types
(`BoundedU8<MIN, MAX>`) are modelled as `Nat` together with validity
predicates (`Savedata.Valid`, `Equipment.Valid`).
-/

/-- The additive table `ENCODE_ADD_TABLE = [0x05, 0x19, 0x32, 0x21]` of
`serialized.rs`, indexed by position `i % 4`. -/
def encodeAddTable (i : Nat) : Nat :=
  if i % 4 = 0 then 0x05
  else if i % 4 = 1 then 0x19
  else if i % 4 = 2 then 0x32
  else 0x21

/-- Decode, XOR phase: `p[i] ^= p[i-1]` for `i = n-1` down to `1` (each step
reads the untouched predecessor), then `p[0] ^= 0x1F`.  From
`SerializedBytes::from_password`. -/
def decode_xor : List Nat → List Nat
  | [] => []
  | h :: t => (h ^^^ 0x1F) :: List.zipWith (fun a b => a ^^^ b) t (h :: t)

/-- Decode, subtraction phase: `b = b.wrapping_sub(TABLE[i % 4]) & 0x3F`,
on `u8` values (hence the `+ 256`).  From `SerializedBytes::from_password`. -/
def sub_table : Nat → List Nat → List Nat
  | _, [] => []
  | i, x :: xs => ((x + 256 - encodeAddTable i) % 64) :: sub_table (i + 1) xs

/-- `SerializedBytes::from_password`: decode a password into a raw buffer. -/
def from_password (p : List Nat) : List Nat :=
  sub_table 0 (decode_xor p)

/-- Encode, addition phase: `b = b.wrapping_add(TABLE[i % 4]) & 0x3F`.
From `SerializedBytes::to_password`. -/
def add_table : Nat → List Nat → List Nat
  | _, [] => []
  | i, x :: xs => ((x + encodeAddTable i) % 64) :: add_table (i + 1) xs

/-- Encode, XOR phase for positions `1..n`: `p[i] ^= p[i-1]` using the
already-updated predecessor (a scan).  From `SerializedBytes::to_password`. -/
def encode_xor_scan : Nat → List Nat → List Nat
  | _, [] => []
  | prev, x :: xs => (x ^^^ prev) :: encode_xor_scan (x ^^^ prev) xs

/-- `SerializedBytes::to_password`: encode a raw buffer into a password. -/
def to_password (b : List Nat) : List Nat :=
  match add_table 0 b with
  | [] => []
  | h :: t => (h ^^^ 0x1F) :: encode_xor_scan (h ^^^ 0x1F) t

/-- `SerializedBytes::checksum_embed`: the checksum stored in the buffer,
`(self[0], self[1])`, with the XOR component defaulting to the maximum
value `0x3F` when the buffer has fewer than two symbols.  (The buffer is
never empty in the source; the `[]` case is junk.) -/
def checksum_embed : List Nat → Nat × Nat
  | [] => (0, 0x3F)
  | [b0] => (b0, 0x3F)
  | b0 :: b1 :: _ => (b0, b1)

/-- `SerializedBytes::checksum_calculated`: checksum computed over the
symbols at positions `>= 2`; both components are `0x3F` when there is no
payload.  The additive sum is a wrapping `u8` sum masked with `0x3F`,
i.e. a sum `% 64`. -/
def checksum_calculated (b : List Nat) : Nat × Nat :=
  if b.length ≤ 2 then (0x3F, 0x3F)
  else ((b.drop 2).foldl (fun acc x => acc + x) 0 % 64,
    (b.drop 2).foldl (fun acc x => acc ^^^ x) 0)

/-- `SerializedBytes::checksum_is_ok`: the stored and the computed
checksums agree. -/
def checksum_is_ok (b : List Nat) : Bool :=
  decide (checksum_embed b = checksum_calculated b)

/-- `Password::is_invalid_second_char`: a password whose second symbol has
this value can never be valid. -/
def is_invalid_second_char (pc : Nat) : Bool :=
  pc % 2 == 0

/-- Big-endian accumulation of a bit list into a value, with accumulator:
the semantics of `bitvec`'s `load_be` on an `Msb0` slice. -/
def bitsToNatFrom : Nat → List Bool → Nat
  | acc, [] => acc
  | acc, b :: t => bitsToNatFrom (2 * acc + b.toNat) t

/-- Value of a bit list, most significant bit first. -/
def bitsToNat (l : List Bool) : Nat :=
  bitsToNatFrom 0 l

/-- The `n` low bits of `v`, most significant first: the semantics of
`bitvec`'s `store_be` into an `n`-bit `Msb0` slice
(`SerializedBits::push_bits`). -/
def natToBits : Nat → Nat → List Bool
  | 0, _ => []
  | n + 1, v => natToBits n (v / 2) ++ [decide (v % 2 = 1)]

/-- Regroup a bit stream into 6-bit symbols (`chunks_exact(6)` +
`load_be`); an incomplete trailing chunk is dropped. -/
def bitsToSymbols : List Bool → List Nat
  | b0 :: b1 :: b2 :: b3 :: b4 :: b5 :: rest =>
      bitsToNat [b0, b1, b2, b3, b4, b5] :: bitsToSymbols rest
  | _ => []

/-- Spell-learning flags (`savedata.rs`). -/
structure Spells where
  kintan : Bool
  rokkaku : Bool
  inazuma : Bool
  hien : Bool
  mankintan : Bool
  fuyuu : Bool
  dadadidi : Bool
  houhi : Bool
deriving DecidableEq

/-- All spells learned (`Spells::ALL`). -/
def Spells.ALL : Spells :=
  ⟨true, true, true, true, true, true, true, true⟩

/-- Event-progress flags (`savedata.rs`). -/
structure Events where
  hanasaka : Bool
  kintaro : Bool
  urashima : Bool
  netaro : Bool
  murata : Bool
  sarukani : Bool
  dragon : Bool
  hohoemi : Bool
deriving DecidableEq

/-- All events finished (`Events::ALL`). -/
def Events.ALL : Events :=
  ⟨true, true, true, true, true, true, true, true⟩

/-- Treasure-possession flags (`savedata.rs`). -/
structure Treasures where
  dragon : Bool
  fur : Bool
  hotoke : Bool
  hourai : Bool
  swallow : Bool
deriving DecidableEq

/-- All treasures held (`Treasures::ALL`). -/
def Treasures.ALL : Treasures :=
  ⟨true, true, true, true, true⟩

/-- Minion-presence flags (`savedata.rs`). -/
structure Minions where
  dog : Bool
  pheasant : Bool
  monkey : Bool
deriving DecidableEq

/-- All minions present (`Minions::ALL`). -/
def Minions.ALL : Minions :=
  ⟨true, true, true⟩

/-- Bookmark flags (`savedata.rs`). -/
structure Bookmarks where
  tabidachi : Bool
  hanasaka : Bool
  kintaro : Bool
  urashima : Bool
  netaro : Bool
  kibou : Bool
  sarukani : Bool
  taketori : Bool
  hohoemi : Bool
  hien : Bool
deriving DecidableEq

/-- All places bookmarked (`Bookmarks::ALL`). -/
def Bookmarks.ALL : Bookmarks :=
  ⟨true, true, true, true, true, true, true, true, true, true⟩

/-- Equipment indices (`savedata.rs`); each field is a bounded integer in
the source (`HelmIndex = BoundedU8<0,3>`, `WeaponIndex = BoundedU8<0,0xF>`,
`ArmorIndex = BoundedU8<0,0xF>`, `ShoesIndex = BoundedU8<0,7>`,
`Accessory0Index`/`Accessory1Index = BoundedU8<0,3>`,
`Accessory2Index`/`Accessory3Index = BoundedU8<0,1>`), modelled as `Nat`
plus `Equipment.Valid`. -/
@[ext]
structure Equipment where
  helm : Nat
  weapon : Nat
  armor : Nat
  shoes : Nat
  accessory0 : Nat
  accessory1 : Nat
  accessory2 : Nat
  accessory3 : Nat
deriving DecidableEq

/-- The ranges the source's bounded equipment-index types enforce by
construction. -/
def Equipment.Valid (e : Equipment) : Prop :=
  e.helm < 4 ∧ e.weapon < 16 ∧ e.armor < 16 ∧ e.shoes < 8 ∧
    e.accessory0 < 4 ∧ e.accessory1 < 4 ∧ e.accessory2 < 2 ∧ e.accessory3 < 2

/-- The helm match arm of `Equipment::normalize`: `0..=2` keeps, `3`
leaves `res` untouched. -/
def normalizeHelmArm (e res : Equipment) : Equipment :=
  if e.helm ≤ 2 then { res with helm := e.helm } else res

/-- The weapon match arm: `0..=10` keeps, `11..=12` leaves `res`
untouched, `13..=15` writes `res.armor = value - 12`. -/
def normalizeWeaponArm (e res : Equipment) : Equipment :=
  if e.weapon ≤ 10 then { res with weapon := e.weapon }
  else if e.weapon ≤ 12 then res
  else { res with armor := e.weapon - 12 }

/-- The armor match arm: `0..=9` keeps, `10..=11` leaves `res` untouched,
`12..=15` writes `res.shoes = value - 11`. -/
def normalizeArmorArm (e res : Equipment) : Equipment :=
  if e.armor ≤ 9 then { res with armor := e.armor }
  else if e.armor ≤ 11 then res
  else { res with shoes := e.armor - 11 }

/-- The shoes match arm: `0..=4` keeps, `5..=6` leaves `res` untouched,
`7` writes `res.accessory0 = 1`. -/
def normalizeShoesArm (e res : Equipment) : Equipment :=
  if e.shoes ≤ 4 then { res with shoes := e.shoes }
  else if e.shoes ≤ 6 then res
  else { res with accessory0 := 1 }

/-- The accessory0 match arm: `0..=2` keeps, `3` leaves `res` untouched. -/
def normalizeAccessory0Arm (e res : Equipment) : Equipment :=
  if e.accessory0 ≤ 2 then { res with accessory0 := e.accessory0 } else res

/-- The accessory1 match arm: `0..=2` keeps, `3` leaves `res` untouched. -/
def normalizeAccessory1Arm (e res : Equipment) : Equipment :=
  if e.accessory1 ≤ 2 then { res with accessory1 := e.accessory1 } else res

/-- `Equipment::normalize` (`savedata.rs`): the per-category match arms
run in source order helm, weapon, armor, shoes, accessory0, accessory1
over a default (all-zero) output `res`, finally copying accessory2 and
accessory3 through. -/
def Equipment.normalize (e : Equipment) : Equipment :=
  let res : Equipment := ⟨0, 0, 0, 0, 0, 0, 0, 0⟩
  let res := normalizeHelmArm e res
  let res := normalizeWeaponArm e res
  let res := normalizeArmorArm e res
  let res := normalizeShoesArm e res
  let res := normalizeAccessory0Arm e res
  let res := normalizeAccessory1Arm e res
  { res with accessory2 := e.accessory2, accessory3 := e.accessory3 }

/-- The game state recorded in a password (`Savedata`, `savedata.rs`).
`xp`/`purse` are `u16`, `deposit` is 6-bit, `age`/`age_timer_hi` are `u8`,
`respawn` is 4-bit, the inventory holds up to 8 nonzero 6-bit item ids. -/
@[ext]
structure Savedata where
  xp : Nat
  purse : Nat
  deposit : Nat
  age : Nat
  age_timer_hi : Nat
  spells : Spells
  events : Events
  treasures : Treasures
  minions : Minions
  bookmarks : Bookmarks
  respawn : Nat
  equipment : Equipment
  inventory : List Nat
deriving DecidableEq

/-- The ranges the source's field types enforce by construction. -/
def Savedata.Valid (s : Savedata) : Prop :=
  s.xp < 65536 ∧ s.purse < 65536 ∧ s.deposit < 64 ∧ s.age < 256 ∧
    s.age_timer_hi < 256 ∧ s.respawn < 16 ∧ s.equipment.Valid ∧
    s.inventory.length ≤ 8 ∧ ∀ x ∈ s.inventory, 1 ≤ x ∧ x < 64

/-- `Savedata::normalize`: normalize the equipment, keep everything else. -/
def Savedata.normalize (s : Savedata) : Savedata :=
  { s with equipment := s.equipment.normalize }

/-- `serialize_spells`: push the spell flags, `houhi` first. -/
def serialize_spells (v : Spells) : List Bool :=
  [v.houhi, v.dadadidi, v.fuyuu, v.mankintan, v.hien, v.inazuma, v.rokkaku,
    v.kintan]

/-- `serialize_events`: push the event flags, `hohoemi` first. -/
def serialize_events (v : Events) : List Bool :=
  [v.hohoemi, v.dragon, v.sarukani, v.murata, v.netaro, v.urashima,
    v.kintaro, v.hanasaka]

/-- `serialize_treasures`: push the treasure flags, `swallow` first. -/
def serialize_treasures (v : Treasures) : List Bool :=
  [v.swallow, v.hourai, v.hotoke, v.fur, v.dragon]

/-- `serialize_minions`: push the minion flags, `monkey` first. -/
def serialize_minions (v : Minions) : List Bool :=
  [v.monkey, v.pheasant, v.dog]

/-- `serialize_bookmarks0`: the low bookmark group, `taketori` first. -/
def serialize_bookmarks0 (v : Bookmarks) : List Bool :=
  [v.taketori, v.sarukani, v.kibou, v.netaro, v.urashima, v.kintaro,
    v.hanasaka, v.tabidachi]

/-- `serialize_bookmarks1`: the high bookmark group, `hien` first. -/
def serialize_bookmarks1 (v : Bookmarks) : List Bool :=
  [v.hien, v.hohoemi]

/-- `serialize_equipment`: widths 2, 4, 4, 3, 2, 2, 1, 1. -/
def serialize_equipment (e : Equipment) : List Bool :=
  natToBits 2 e.helm ++ natToBits 4 e.weapon ++ natToBits 4 e.armor ++
    natToBits 3 e.shoes ++ natToBits 2 e.accessory0 ++
    natToBits 2 e.accessory1 ++ natToBits 1 e.accessory2 ++
    natToBits 1 e.accessory3

/-- `serialize_inventory`: each held item as 6 bits, then one 6-bit zero
terminator unless the inventory is full (8 items). -/
def serialize_inventory (inv : List Nat) : List Bool :=
  (inv.map (natToBits 6)).flatten ++
    (if inv.length < 8 then natToBits 6 0 else [])

/-- The field-packing order of `SerializedBytes::from_savedata`:
`xp as u8` is `xp % 256` and `xp >> 8` is `xp / 256` on a `u16` (likewise
for `purse`). -/
def serializeBits (s : Savedata) : List Bool :=
  natToBits 8 s.age_timer_hi ++ natToBits 8 (s.purse / 256) ++
    natToBits 8 s.age ++ natToBits 8 (s.purse % 256) ++
    natToBits 8 (s.xp % 256) ++ natToBits 6 s.deposit ++
    natToBits 8 (s.xp / 256) ++ serialize_spells s.spells ++
    serialize_treasures s.treasures ++ natToBits 4 s.respawn ++
    serialize_bookmarks1 s.bookmarks ++ serialize_minions s.minions ++
    serialize_bookmarks0 s.bookmarks ++ serialize_events s.events ++
    serialize_equipment s.equipment ++ serialize_inventory s.inventory

/-- `SerializedBits::to_bytes`: pad the bit vector with `0`-bits up to a
multiple of 6, regroup into symbols, prepend two placeholder symbols,
then overwrite them with the calculated checksum. -/
def to_bytes (bits : List Bool) : List Nat :=
  let padded := bits ++ List.replicate ((bits.length + 5) / 6 * 6 - bits.length) false
  let payload := bitsToSymbols padded
  let cs := checksum_calculated (0 :: 0 :: payload)
  cs.1 :: cs.2 :: payload

/-- `SerializedBytes::from_savedata`. -/
def from_savedata (s : Savedata) : List Nat :=
  to_bytes (serializeBits s)

/-- `SerializedBits::from_bytes`: the symbols at positions `>= 2` (at most
`162 / 6 = 27` of them) as a bit stream, 1-padded up to the fixed 162-bit
capacity. -/
def from_bytes (b : List Nat) : List Bool :=
  let used := (((b.drop 2).take 27).map (natToBits 6)).flatten
  used ++ List.replicate (162 - used.length) true

/-- `deserialize_bits`: split `n` bits off the stream and load them
big-endian. -/
def deserialize_bits (bits : List Bool) (n : Nat) : Nat × List Bool :=
  (bitsToNat (bits.take n), bits.drop n)

/-- Bit `k` of `v` (`view_bits::<Lsb0>()[k]`). -/
def nthBit (v k : Nat) : Bool :=
  decide (v / 2 ^ k % 2 = 1)

/-- `unpack_spells`: `Lsb0` bit view of the 8-bit spell group. -/
def unpack_spells (v : Nat) : Spells :=
  ⟨nthBit v 0, nthBit v 1, nthBit v 2, nthBit v 3, nthBit v 4, nthBit v 5,
    nthBit v 6, nthBit v 7⟩

/-- `unpack_events`: `Lsb0` bit view of the 8-bit event group. -/
def unpack_events (v : Nat) : Events :=
  ⟨nthBit v 0, nthBit v 1, nthBit v 2, nthBit v 3, nthBit v 4, nthBit v 5,
    nthBit v 6, nthBit v 7⟩

/-- `unpack_treasures`: `Lsb0` bit view of the 5-bit treasure group. -/
def unpack_treasures (v : Nat) : Treasures :=
  ⟨nthBit v 0, nthBit v 1, nthBit v 2, nthBit v 3, nthBit v 4⟩

/-- `unpack_minions`: `Lsb0` bit view of the 3-bit minion group. -/
def unpack_minions (v : Nat) : Minions :=
  ⟨nthBit v 0, nthBit v 1, nthBit v 2⟩

/-- `unpack_bookmarks`: `Lsb0` bit view of the two bookmark groups
(`[bookmarks0, bookmarks1]`, 16 bits; bits 8 and 9 come from the second
byte). -/
def unpack_bookmarks (b0 b1 : Nat) : Bookmarks :=
  ⟨nthBit b0 0, nthBit b0 1, nthBit b0 2, nthBit b0 3, nthBit b0 4,
    nthBit b0 5, nthBit b0 6, nthBit b0 7, nthBit b1 0, nthBit b1 1⟩

/-- `deserialize_equipment`: widths 2, 4, 4, 3, 2, 2, 1, 1. -/
def deserialize_equipment (bits : List Bool) : Equipment × List Bool :=
  let (helm, bits) := deserialize_bits bits 2
  let (weapon, bits) := deserialize_bits bits 4
  let (armor, bits) := deserialize_bits bits 4
  let (shoes, bits) := deserialize_bits bits 3
  let (accessory0, bits) := deserialize_bits bits 2
  let (accessory1, bits) := deserialize_bits bits 2
  let (accessory2, bits) := deserialize_bits bits 1
  let (accessory3, bits) := deserialize_bits bits 1
  (⟨helm, weapon, armor, shoes, accessory0, accessory1, accessory2,
    accessory3⟩, bits)

/-- `deserialize_inventory`'s loop: read up to `n` 6-bit items, stopping
at a zero item. -/
def deserialize_inventory_loop : Nat → List Bool → List Nat × List Bool
  | 0, bits => ([], bits)
  | n + 1, bits =>
      let (item, bits') := deserialize_bits bits 6
      if item = 0 then ([], bits')
      else
        let (rest, bits'') := deserialize_inventory_loop n bits'
        (item :: rest, bits'')

/-- `deserialize_inventory`: at most 8 items. -/
def deserialize_inventory (bits : List Bool) : List Nat × List Bool :=
  deserialize_inventory_loop 8 bits

/-- The field reads of `SerializedBytes::to_savedata`, in source order;
`xp`/`purse` are reassembled as `lo | (hi << 8)`. -/
def deserialize_savedata (bits : List Bool) : Savedata :=
  let r1 := deserialize_bits bits 8
  let r2 := deserialize_bits r1.2 8
  let r3 := deserialize_bits r2.2 8
  let r4 := deserialize_bits r3.2 8
  let r5 := deserialize_bits r4.2 8
  let r6 := deserialize_bits r5.2 6
  let r7 := deserialize_bits r6.2 8
  let r8 := deserialize_bits r7.2 8
  let r9 := deserialize_bits r8.2 5
  let r10 := deserialize_bits r9.2 4
  let r11 := deserialize_bits r10.2 2
  let r12 := deserialize_bits r11.2 3
  let r13 := deserialize_bits r12.2 8
  let r14 := deserialize_bits r13.2 8
  let re := deserialize_equipment r14.2
  let ri := deserialize_inventory re.2
  { xp := r5.1 ||| (r7.1 <<< 8)
    purse := r4.1 ||| (r2.1 <<< 8)
    deposit := r6.1
    age := r3.1
    age_timer_hi := r1.1
    spells := unpack_spells r8.1
    events := unpack_events r14.1
    treasures := unpack_treasures r9.1
    minions := unpack_minions r12.1
    bookmarks := unpack_bookmarks r13.1 r11.1
    respawn := r10.1
    equipment := re.1
    inventory := ri.1 }

/-- `SerializedBytes::to_savedata`: `None` on a checksum mismatch. -/
def to_savedata (b : List Nat) : Option Savedata :=
  if checksum_is_ok b then some (deserialize_savedata (from_bytes b))
  else none

/-- The all-zero game state (`Savedata::default()`). -/
def zeroSavedata : Savedata :=
  { xp := 0, purse := 0, deposit := 0, age := 0, age_timer_hi := 0,
    spells := ⟨false, false, false, false, false, false, false, false⟩,
    events := ⟨false, false, false, false, false, false, false, false⟩,
    treasures := ⟨false, false, false, false, false⟩,
    minions := ⟨false, false, false⟩,
    bookmarks := ⟨false, false, false, false, false, false, false, false,
      false, false⟩,
    respawn := 0, equipment := ⟨0, 0, 0, 0, 0, 0, 0, 0⟩, inventory := [] }

/-- The raw game state the password ふ (symbol `0x1B`) decodes to: every
field at its maximum, every flag set, eight items with the maximum id
(`test_load_fu` of `serialized.rs`). -/
def fuSavedata : Savedata :=
  { xp := 0xFFFF, purse := 0xFFFF, deposit := 0x3F, age := 0xFF,
    age_timer_hi := 0xFF, spells := Spells.ALL, events := Events.ALL,
    treasures := Treasures.ALL, minions := Minions.ALL,
    bookmarks := Bookmarks.ALL, respawn := 0xF,
    equipment := ⟨3, 15, 15, 7, 3, 3, 1, 1⟩,
    inventory := List.replicate 8 0x3F }

lemma encodeAddTable_le (i : Nat) : encodeAddTable i ≤ 0x32 := by
  unfold encodeAddTable
  split_ifs <;> omega

lemma add_table_sub_table (i : Nat) (l : List Nat) (h : ∀ x ∈ l, x < 64) :
    add_table i (sub_table i l) = l := by
  induction l generalizing i with
  | nil => rfl
  | cons x xs ih =>
      have hx : x < 64 := h x (by simp)
      have ht : encodeAddTable i ≤ 0x32 := encodeAddTable_le i
      have hxs : add_table (i + 1) (sub_table (i + 1) xs) = xs :=
        ih (i + 1) (fun y hy => h y (by simp [hy]))
      simp only [sub_table, add_table, hxs, List.cons.injEq, and_true]
      omega

lemma sub_table_add_table (i : Nat) (l : List Nat) (h : ∀ x ∈ l, x < 64) :
    sub_table i (add_table i l) = l := by
  induction l generalizing i with
  | nil => rfl
  | cons x xs ih =>
      have hx : x < 64 := h x (by simp)
      have ht : encodeAddTable i ≤ 0x32 := encodeAddTable_le i
      have hxs : sub_table (i + 1) (add_table (i + 1) xs) = xs :=
        ih (i + 1) (fun y hy => h y (by simp [hy]))
      simp only [add_table, sub_table, hxs, List.cons.injEq, and_true]
      omega

lemma xor_cancel_31 (x : Nat) : x ^^^ 0x1F ^^^ 0x1F = x := by
  rw [Nat.xor_assoc, Nat.xor_self, Nat.xor_zero]

lemma encode_xor_scan_zipWith (t : List Nat) (p : Nat) :
    encode_xor_scan p (List.zipWith (fun a b => a ^^^ b) t (p :: t)) = t := by
  induction t generalizing p with
  | nil => rfl
  | cons x xs ih =>
      simp only [List.zipWith, encode_xor_scan]
      rw [Nat.xor_assoc, Nat.xor_self, Nat.xor_zero]
      exact congrArg (x :: ·) (ih x)

lemma zipWith_encode_xor_scan (t : List Nat) (p : Nat) :
    List.zipWith (fun a b => a ^^^ b) (encode_xor_scan p t)
      (p :: encode_xor_scan p t) = t := by
  induction t generalizing p with
  | nil => rfl
  | cons x xs ih =>
      simp only [encode_xor_scan, List.zipWith]
      rw [Nat.xor_assoc, Nat.xor_self, Nat.xor_zero]
      exact congrArg (x :: ·) (ih (x ^^^ p))

lemma xor_lt_64 {a b : Nat} (ha : a < 64) (hb : b < 64) : a ^^^ b < 64 := by
  have : a ^^^ b < 2 ^ 6 :=
    Nat.xor_lt_two_pow (by norm_num [ha]) (by norm_num [hb])
  simpa using this

lemma zipWith_xor_lt (t l : List Nat) (ht : ∀ x ∈ t, x < 64)
    (hl : ∀ x ∈ l, x < 64) :
    ∀ x ∈ List.zipWith (fun a b => a ^^^ b) t l, x < 64 := by
  induction t generalizing l with
  | nil => simp
  | cons y ys ih =>
      cases l with
      | nil => simp
      | cons z zs =>
          intro x hx
          simp only [List.zipWith, List.mem_cons] at hx
          rcases hx with rfl | hx
          · exact xor_lt_64 (ht y (by simp)) (hl z (by simp))
          · exact ih zs (fun a ha => ht a (List.mem_cons_of_mem _ ha))
              (fun a ha => hl a (List.mem_cons_of_mem _ ha)) x hx

lemma decode_xor_lt (l : List Nat) (h : ∀ x ∈ l, x < 64) :
    ∀ x ∈ decode_xor l, x < 64 := by
  cases l with
  | nil => simp [decode_xor]
  | cons y ys =>
      intro x hx
      simp only [decode_xor, List.mem_cons] at hx
      rcases hx with rfl | hx
      · exact xor_lt_64 (h y (by simp)) (by norm_num)
      · exact zipWith_xor_lt ys (y :: ys)
          (fun a ha => h a (by simp [ha])) h x hx

lemma sub_table_lt (i : Nat) (l : List Nat) :
    ∀ x ∈ sub_table i l, x < 64 := by
  induction l generalizing i with
  | nil => simp [sub_table]
  | cons y ys ih =>
      intro x hx
      simp only [sub_table, List.mem_cons] at hx
      rcases hx with rfl | hx
      · exact Nat.mod_lt _ (by norm_num)
      · exact ih (i + 1) x hx

lemma add_table_lt (i : Nat) (l : List Nat) :
    ∀ x ∈ add_table i l, x < 64 := by
  induction l generalizing i with
  | nil => simp [add_table]
  | cons y ys ih =>
      intro x hx
      simp only [add_table, List.mem_cons] at hx
      rcases hx with rfl | hx
      · exact Nat.mod_lt _ (by norm_num)
      · exact ih (i + 1) x hx

/-- **C1.** The cipher is a bijection on symbol sequences of each length
`1..=38`: `to_password (from_password p) = p` for every password, and
`from_password (to_password b) = b` for every raw buffer; `from_password`
is a total function on such inputs. -/
theorem c1_cipher_roundtrip (p : List Nat) (hmin : 1 ≤ p.length)
    (hmax : p.length ≤ 38) (hval : ∀ x ∈ p, x < 64) :
    to_password (from_password p) = p ∧ from_password (to_password p) = p := by
  obtain ⟨h, t, rfl⟩ : ∃ h t, p = h :: t := by
    cases p with
    | nil => simp at hmin
    | cons h t => exact ⟨h, t, rfl⟩
  constructor
  · unfold from_password to_password
    rw [add_table_sub_table 0 _ (decode_xor_lt _ hval)]
    simp only [decode_xor]
    rw [xor_cancel_31]
    exact congrArg (h :: ·) (encode_xor_scan_zipWith t h)
  · unfold to_password from_password
    simp only [add_table]
    simp only [decode_xor]
    rw [xor_cancel_31, zipWith_encode_xor_scan]
    have : sub_table 0 (add_table 0 (h :: t)) = h :: t :=
      sub_table_add_table 0 (h :: t) hval
    simpa [add_table] using this

/-- Witness for C1 at the singleton password `[0x1B]` (the glyph ふ). -/
theorem c1_cipher_roundtrip_witness :
    to_password (from_password [0x1B]) = [0x1B] ∧
      from_password (to_password [0x1B]) = [0x1B] :=
  c1_cipher_roundtrip [0x1B] (by decide) (by decide) (by decide)

lemma checksum_calculated_cons (x y x' y' : Nat) (p : List Nat) :
    checksum_calculated (x :: y :: p) = checksum_calculated (x' :: y' :: p) := by
  simp [checksum_calculated]

lemma checksum_embed_cons (x y : Nat) (p : List Nat) :
    checksum_embed (x :: y :: p) = (x, y) := rfl

lemma to_bytes_eq (bits : List Bool) :
    to_bytes bits =
      (checksum_calculated
          (0 :: 0 :: bitsToSymbols (bits ++
            List.replicate ((bits.length + 5) / 6 * 6 - bits.length) false))).1 ::
        (checksum_calculated
          (0 :: 0 :: bitsToSymbols (bits ++
            List.replicate ((bits.length + 5) / 6 * 6 - bits.length) false))).2 ::
        bitsToSymbols (bits ++
          List.replicate ((bits.length + 5) / 6 * 6 - bits.length) false) := rfl

lemma to_bytes_checksum (bits : List Bool) :
    checksum_embed (to_bytes bits) = checksum_calculated (to_bytes bits) := by
  rw [to_bytes_eq]
  exact (checksum_calculated_cons _ _ 0 0 _).symm

lemma to_bytes_checksum_is_ok (bits : List Bool) :
    checksum_is_ok (to_bytes bits) = true := by
  simp [checksum_is_ok, to_bytes_checksum]

lemma checksum_calculated_to_bytes (bits : List Bool) :
    checksum_calculated (to_bytes bits) =
      checksum_calculated (0 :: 0 :: bitsToSymbols (bits ++
        List.replicate ((bits.length + 5) / 6 * 6 - bits.length) false)) := by
  rw [to_bytes_eq]
  exact checksum_calculated_cons _ _ 0 0 _

lemma to_bytes_getD_fst (bits : List Bool) :
    (to_bytes bits).getD 0 0 = (checksum_calculated (to_bytes bits)).1 := by
  rw [checksum_calculated_to_bytes, to_bytes_eq]
  rfl

lemma to_bytes_getD_snd (bits : List Bool) :
    (to_bytes bits).getD 1 0 = (checksum_calculated (to_bytes bits)).2 := by
  rw [checksum_calculated_to_bytes, to_bytes_eq]
  rfl

/-- **C2.** Every serialized game state is checksum-valid by construction:
its symbol 0 is the calculated additive checksum and its symbol 1 is the
calculated XOR checksum over the symbols at positions `>= 2`. -/
theorem c2_from_savedata_checksum_valid (s : Savedata) (h : s.Valid) :
    checksum_is_ok (from_savedata s) = true ∧
      (from_savedata s).getD 0 0 = (checksum_calculated (from_savedata s)).1 ∧
      (from_savedata s).getD 1 0 = (checksum_calculated (from_savedata s)).2 := by
  exact ⟨to_bytes_checksum_is_ok _, to_bytes_getD_fst _, to_bytes_getD_snd _⟩

/-- Witness for C2 at the all-zero game state. -/
theorem c2_from_savedata_checksum_valid_witness :
    checksum_is_ok (from_savedata zeroSavedata) = true ∧
      (from_savedata zeroSavedata).getD 0 0 =
        (checksum_calculated (from_savedata zeroSavedata)).1 ∧
      (from_savedata zeroSavedata).getD 1 0 =
        (checksum_calculated (from_savedata zeroSavedata)).2 :=
  c2_from_savedata_checksum_valid zeroSavedata (by
    refine ⟨by decide, by decide, by decide, by decide, by decide, by decide,
      ⟨by decide, by decide, by decide, by decide, by decide, by decide,
        by decide, by decide⟩, by decide, by decide⟩)

/-- **C3.** `to_savedata` yields a game state exactly when the stored and
the calculated checksums agree; on a mismatch it yields `None` (a normal
negative result, never a panic) and the two diagnostic checksum values
really differ. -/
theorem c3_to_savedata_checksum_gate (b : List Nat) (h1 : 1 ≤ b.length)
    (h2 : b.length ≤ 38) (hval : ∀ x ∈ b, x < 64) :
    ((∃ sd, to_savedata b = some sd) ↔ checksum_is_ok b = true) ∧
      (checksum_is_ok b = false →
        to_savedata b = none ∧ checksum_embed b ≠ checksum_calculated b) := by
  constructor
  · constructor
    · rintro ⟨sd, hsd⟩
      by_contra hok
      rw [Bool.not_eq_true] at hok
      rw [to_savedata, hok] at hsd
      simp at hsd
    · intro hok
      exact ⟨deserialize_savedata (from_bytes b), by rw [to_savedata, hok]; simp⟩
  · intro hbad
    refine ⟨by rw [to_savedata, hbad]; simp, ?_⟩
    simpa [checksum_is_ok] using hbad

/-- Witness for C3 at the single-symbol buffer `[0x3F]`. -/
theorem c3_to_savedata_checksum_gate_witness :
    ((∃ sd, to_savedata [0x3F] = some sd) ↔ checksum_is_ok [0x3F] = true) ∧
      (checksum_is_ok [0x3F] = false →
        to_savedata [0x3F] = none ∧
          checksum_embed [0x3F] ≠ checksum_calculated [0x3F]) :=
  c3_to_savedata_checksum_gate [0x3F] (by decide) (by decide) (by decide)

lemma foldl_add_eq_sum (l : List Nat) (a : Nat) :
    l.foldl (fun acc x => acc + x) a = a + l.sum := by
  induction l generalizing a with
  | nil => simp
  | cons x xs ih => simp [ih]; omega

/-- **C4.** The stored checksum is `(symbol 0, symbol 1)`, where symbol 1
is replaced by 63 for a one-symbol buffer; the calculated checksum sums
(mod 64) and XORs the symbols at positions `>= 2`, and both components
are 63 when the buffer has at most two symbols. -/
theorem c4_checksum_formulas (b : List Nat) (h : 1 ≤ b.length) :
    checksum_embed b = (b.getD 0 0, if 2 ≤ b.length then b.getD 1 0 else 63) ∧
      checksum_calculated b =
        (if b.length ≤ 2 then (63, 63)
         else ((b.drop 2).sum % 64, (b.drop 2).foldl (fun a x => a ^^^ x) 0)) := by
  constructor
  · rcases b with _ | ⟨b0, _ | ⟨b1, t⟩⟩
    · simp at h
    · simp [checksum_embed]
    · simp [checksum_embed]
  · rw [checksum_calculated]
    split_ifs with hlen
    · rfl
    · rw [foldl_add_eq_sum, Nat.zero_add]

/-- Witness for C4 at the buffer `[1, 2, 3]`. -/
theorem c4_checksum_formulas_witness :
    checksum_embed [1, 2, 3] =
        ([1, 2, 3].getD 0 0,
          if 2 ≤ [1, 2, 3].length then [1, 2, 3].getD 1 0 else 63) ∧
      checksum_calculated [1, 2, 3] =
        (if [1, 2, 3].length ≤ 2 then (63, 63)
         else (([1, 2, 3].drop 2).sum % 64,
           ([1, 2, 3].drop 2).foldl (fun a x => a ^^^ x) 0)) :=
  c4_checksum_formulas [1, 2, 3] (by decide)

lemma normalize_proj_simp (e : Equipment) :
    Equipment.normalize e =
      { normalizeAccessory1Arm e (normalizeAccessory0Arm e (normalizeShoesArm e
          (normalizeArmorArm e (normalizeWeaponArm e (normalizeHelmArm e
            ⟨0, 0, 0, 0, 0, 0, 0, 0⟩))))) with
        accessory2 := e.accessory2, accessory3 := e.accessory3 } := rfl

lemma normalize_helm (e : Equipment) :
    e.normalize.helm = if e.helm ≤ 2 then e.helm else 0 := by
  rw [normalize_proj_simp]
  simp only [normalizeAccessory1Arm, normalizeAccessory0Arm, normalizeShoesArm,
    normalizeArmorArm, normalizeWeaponArm, normalizeHelmArm,
    apply_ite Equipment.helm, ite_self]

lemma normalize_weapon (e : Equipment) :
    e.normalize.weapon = if e.weapon ≤ 10 then e.weapon else 0 := by
  rw [normalize_proj_simp]
  simp only [normalizeAccessory1Arm, normalizeAccessory0Arm, normalizeShoesArm,
    normalizeArmorArm, normalizeWeaponArm, normalizeHelmArm,
    apply_ite Equipment.weapon, ite_self]

lemma normalize_armor (e : Equipment) :
    e.normalize.armor =
      if e.armor ≤ 9 then e.armor
      else if 13 ≤ e.weapon then e.weapon - 12 else 0 := by
  rw [normalize_proj_simp]
  simp only [normalizeAccessory1Arm, normalizeAccessory0Arm, normalizeShoesArm,
    normalizeArmorArm, normalizeWeaponArm, normalizeHelmArm,
    apply_ite Equipment.armor, ite_self]
  split_ifs <;> omega

lemma normalize_shoes (e : Equipment) :
    e.normalize.shoes =
      if e.shoes ≤ 4 then e.shoes
      else if 12 ≤ e.armor then e.armor - 11 else 0 := by
  rw [normalize_proj_simp]
  simp only [normalizeAccessory1Arm, normalizeAccessory0Arm, normalizeShoesArm,
    normalizeArmorArm, normalizeWeaponArm, normalizeHelmArm,
    apply_ite Equipment.shoes, ite_self]
  split_ifs <;> omega

lemma normalize_accessory0 (e : Equipment) :
    e.normalize.accessory0 =
      if e.accessory0 ≤ 2 then e.accessory0
      else if 7 ≤ e.shoes then 1 else 0 := by
  rw [normalize_proj_simp]
  simp only [normalizeAccessory1Arm, normalizeAccessory0Arm, normalizeShoesArm,
    normalizeArmorArm, normalizeWeaponArm, normalizeHelmArm,
    apply_ite Equipment.accessory0, ite_self]
  split_ifs <;> omega

lemma normalize_accessory1 (e : Equipment) :
    e.normalize.accessory1 = if e.accessory1 ≤ 2 then e.accessory1 else 0 := by
  rw [normalize_proj_simp]
  simp only [normalizeAccessory1Arm, normalizeAccessory0Arm, normalizeShoesArm,
    normalizeArmorArm, normalizeWeaponArm, normalizeHelmArm,
    apply_ite Equipment.accessory1, ite_self]

lemma normalize_accessory2 (e : Equipment) :
    e.normalize.accessory2 = e.accessory2 := by
  rw [normalize_proj_simp]

lemma normalize_accessory3 (e : Equipment) :
    e.normalize.accessory3 = e.accessory3 := by
  rw [normalize_proj_simp]

/-- **C5.** `Equipment::normalize` realizes the zone-table cascade over a
fresh all-zero output in the fixed order helm, weapon, armor, shoes,
accessory0, accessory1 (accessory2/3 copied through): each category keeps
its keep-zone value and otherwise leaves its output field to whatever an
earlier category's alias wrote (or zero); the alias targets are
`armor = weapon - 12` (weapon 13..15), `shoes = armor - 11` (armor
12..15) and `accessory0 = 1` (shoes 7), and a category's own keep rule
overwrites an earlier alias while its clear rule leaves it in place. -/
theorem c5_normalize_zone_cascade (e : Equipment) (h : e.Valid) :
    e.normalize.helm = (if e.helm ≤ 2 then e.helm else 0) ∧
      e.normalize.weapon = (if e.weapon ≤ 10 then e.weapon else 0) ∧
      e.normalize.armor =
        (if e.armor ≤ 9 then e.armor
         else if 13 ≤ e.weapon ∧ e.weapon ≤ 15 then e.weapon - 12 else 0) ∧
      e.normalize.shoes =
        (if e.shoes ≤ 4 then e.shoes
         else if 12 ≤ e.armor ∧ e.armor ≤ 15 then e.armor - 11 else 0) ∧
      e.normalize.accessory0 =
        (if e.accessory0 ≤ 2 then e.accessory0
         else if e.shoes = 7 then 1 else 0) ∧
      e.normalize.accessory1 =
        (if e.accessory1 ≤ 2 then e.accessory1 else 0) ∧
      e.normalize.accessory2 = e.accessory2 ∧
      e.normalize.accessory3 = e.accessory3 := by
  obtain ⟨h1, h2, h3, h4, h5, h6, h7, h8⟩ := h
  refine ⟨normalize_helm e, normalize_weapon e, ?_, ?_, ?_, normalize_accessory1 e,
    normalize_accessory2 e, normalize_accessory3 e⟩
  · rw [normalize_armor]
    split_ifs <;> omega
  · rw [normalize_shoes]
    split_ifs <;> omega
  · rw [normalize_accessory0]
    split_ifs <;> omega

/-- Witness for C5 at the all-maximum equipment. -/
theorem c5_normalize_zone_cascade_witness :
    (Equipment.mk 3 15 15 7 3 3 1 1).normalize.helm =
        (if (Equipment.mk 3 15 15 7 3 3 1 1).helm ≤ 2
         then (Equipment.mk 3 15 15 7 3 3 1 1).helm else 0) ∧
      (Equipment.mk 3 15 15 7 3 3 1 1).normalize.weapon =
        (if (Equipment.mk 3 15 15 7 3 3 1 1).weapon ≤ 10
         then (Equipment.mk 3 15 15 7 3 3 1 1).weapon else 0) ∧
      (Equipment.mk 3 15 15 7 3 3 1 1).normalize.armor =
        (if (Equipment.mk 3 15 15 7 3 3 1 1).armor ≤ 9
         then (Equipment.mk 3 15 15 7 3 3 1 1).armor
         else if 13 ≤ (Equipment.mk 3 15 15 7 3 3 1 1).weapon ∧
             (Equipment.mk 3 15 15 7 3 3 1 1).weapon ≤ 15
           then (Equipment.mk 3 15 15 7 3 3 1 1).weapon - 12 else 0) ∧
      (Equipment.mk 3 15 15 7 3 3 1 1).normalize.shoes =
        (if (Equipment.mk 3 15 15 7 3 3 1 1).shoes ≤ 4
         then (Equipment.mk 3 15 15 7 3 3 1 1).shoes
         else if 12 ≤ (Equipment.mk 3 15 15 7 3 3 1 1).armor ∧
             (Equipment.mk 3 15 15 7 3 3 1 1).armor ≤ 15
           then (Equipment.mk 3 15 15 7 3 3 1 1).armor - 11 else 0) ∧
      (Equipment.mk 3 15 15 7 3 3 1 1).normalize.accessory0 =
        (if (Equipment.mk 3 15 15 7 3 3 1 1).accessory0 ≤ 2
         then (Equipment.mk 3 15 15 7 3 3 1 1).accessory0
         else if (Equipment.mk 3 15 15 7 3 3 1 1).shoes = 7 then 1 else 0) ∧
      (Equipment.mk 3 15 15 7 3 3 1 1).normalize.accessory1 =
        (if (Equipment.mk 3 15 15 7 3 3 1 1).accessory1 ≤ 2
         then (Equipment.mk 3 15 15 7 3 3 1 1).accessory1 else 0) ∧
      (Equipment.mk 3 15 15 7 3 3 1 1).normalize.accessory2 =
        (Equipment.mk 3 15 15 7 3 3 1 1).accessory2 ∧
      (Equipment.mk 3 15 15 7 3 3 1 1).normalize.accessory3 =
        (Equipment.mk 3 15 15 7 3 3 1 1).accessory3 :=
  c5_normalize_zone_cascade (Equipment.mk 3 15 15 7 3 3 1 1)
    ⟨by decide, by decide, by decide, by decide, by decide, by decide,
      by decide, by decide⟩

lemma equipment_normalize_idempotent (e : Equipment) (h : e.Valid) :
    e.normalize.normalize = e.normalize := by
  obtain ⟨h1, h2, h3, h4, h5, h6, h7, h8⟩ := h
  ext <;>
    simp only [normalize_helm, normalize_weapon, normalize_armor,
      normalize_shoes, normalize_accessory0, normalize_accessory1,
      normalize_accessory2, normalize_accessory3] <;>
    split_ifs <;> omega

/-- **C6.** Normalization is idempotent: normalizing twice equals
normalizing once, so every output of `normalize` is a fixed point. -/
theorem c6_normalize_idempotent (s : Savedata) (h : s.Valid) :
    s.normalize.normalize = s.normalize := by
  have he : s.equipment.normalize.normalize = s.equipment.normalize :=
    equipment_normalize_idempotent s.equipment h.2.2.2.2.2.2.1
  simp [Savedata.normalize, he]

/-- Witness for C6 at the raw ふ game state. -/
theorem c6_normalize_idempotent_witness :
    fuSavedata.normalize.normalize = fuSavedata.normalize :=
  c6_normalize_idempotent fuSavedata
    ⟨by decide, by decide, by decide, by decide, by decide, by decide,
      ⟨by decide, by decide, by decide, by decide, by decide, by decide,
        by decide, by decide⟩, by decide, by decide⟩

/-- **C7.** Missing trailing payload bits read as 1-bits: the single-glyph
password ふ (symbol `0x1B`) decodes with a valid checksum, and its raw
(pre-normalization) game state has `xp = 0xFFFF`, `purse = 0xFFFF`,
maximum deposit, `age = 0xFF`, `age_timer_hi = 0xFF`, every flag group
fully set, maximum respawn id, every equipment index at its maximum and
eight inventory items with the maximum id 63. -/
theorem c7_fu_password_all_ones :
    to_savedata (from_password [0x1B]) = some fuSavedata := by decide

lemma foldl_xor_parity (l : List Nat) (a : Nat) :
    (l.foldl (fun acc x => acc ^^^ x) a) % 2 = (a + l.sum) % 2 := by
  induction l generalizing a with
  | nil => simp
  | cons x xs ih =>
      simp only [List.foldl_cons, List.sum_cons]
      rw [ih]
      have hx : (a ^^^ x) % 2 = (a + x) % 2 := Nat.xor_mod_two_eq
      omega

lemma checksum_ok_parity (b0 b1 : Nat) (rest : List Nat)
    (h : checksum_is_ok (b0 :: b1 :: rest) = true) : b0 % 2 = b1 % 2 := by
  rw [checksum_is_ok, decide_eq_true_eq, checksum_embed_cons] at h
  rcases rest with _ | ⟨c, cs⟩
  · rw [checksum_calculated] at h
    simp only [List.length_cons, List.length_nil, Prod.mk.injEq] at h
    norm_num at h
    omega
  · rw [checksum_calculated] at h
    have hlen : ¬ ((b0 :: b1 :: c :: cs).length ≤ 2) := by
      simp [List.length_cons]
    rw [if_neg hlen] at h
    simp only [List.drop_succ_cons, List.drop_zero, Prod.mk.injEq] at h
    obtain ⟨ha, hx⟩ := h
    have hsum := foldl_add_eq_sum (c :: cs) 0
    have hpar := foldl_xor_parity (c :: cs) 0
    omega

lemma from_password_cons_cons (p0 p1 : Nat) (rest : List Nat) :
    from_password (p0 :: p1 :: rest) =
      ((p0 ^^^ 0x1F) + 256 - 0x05) % 64 ::
        ((p1 ^^^ p0) + 256 - 0x19) % 64 ::
          sub_table 2 (List.zipWith (fun a b => a ^^^ b) rest (p1 :: rest)) := by
  simp [from_password, decode_xor, sub_table, encodeAddTable]

/-- **C8.** Second-symbol pruning: a password of length at least 2 whose
second symbol is even (`is_invalid_second_char`) always fails checksum
validation after decoding; equivalently the decoded stored checksum pair
has matching parities exactly when the second password symbol is odd. -/
theorem c8_second_symbol_pruning (p0 p1 : Nat) (rest : List Nat)
    (h0 : p0 < 64) (h1 : p1 < 64) (hrest : ∀ x ∈ rest, x < 64)
    (hlen : rest.length ≤ 36) :
    (is_invalid_second_char p1 = true →
      checksum_is_ok (from_password (p0 :: p1 :: rest)) = false) ∧
      ((checksum_embed (from_password (p0 :: p1 :: rest))).1 % 2 =
          (checksum_embed (from_password (p0 :: p1 :: rest))).2 % 2 ↔
        p1 % 2 = 1) := by
  have hx0 : (p0 ^^^ 0x1F) % 2 = (p0 + 0x1F) % 2 := Nat.xor_mod_two_eq
  have hx1 : (p1 ^^^ p0) % 2 = (p1 + p0) % 2 := Nat.xor_mod_two_eq
  have hemb :
      checksum_embed (from_password (p0 :: p1 :: rest)) =
        (((p0 ^^^ 0x1F) + 256 - 0x05) % 64,
          ((p1 ^^^ p0) + 256 - 0x19) % 64) := by
    rw [from_password_cons_cons, checksum_embed_cons]
  constructor
  · intro heven
    rw [is_invalid_second_char, Nat.beq_eq_true_eq] at heven
    by_contra hok
    rw [Bool.not_eq_false] at hok
    rw [from_password_cons_cons] at hok
    have := checksum_ok_parity _ _ _ hok
    omega
  · rw [hemb]
    constructor <;> (intro hp; omega)

/-- Witness for C8 at the two-symbol password `[0, 0]`. -/
theorem c8_second_symbol_pruning_witness :
    (is_invalid_second_char 0 = true →
      checksum_is_ok (from_password [0, 0]) = false) ∧
      ((checksum_embed (from_password [0, 0])).1 % 2 =
          (checksum_embed (from_password [0, 0])).2 % 2 ↔
        (0 : Nat) % 2 = 1) :=
  c8_second_symbol_pruning 0 0 [] (by decide) (by decide) (by decide)
    (by decide)

/-- **C10 counterexample.** Checksum validity does not characterize the
image of the encoder: the one-symbol buffer `[0x3F]` (the decode of the
password ふ) is checksum-valid, yet no valid game state serializes to it
(every encoded buffer has at least two symbols). -/
theorem c10_checksum_encode_counterexample :
    checksum_is_ok [0x3F] = true ∧
      ¬ ∃ s : Savedata, Savedata.Valid s ∧ from_savedata s = [0x3F] := by
  refine ⟨by decide, ?_⟩
  rintro ⟨s, hvalid, heq⟩
  have hlen : (from_savedata s).length = 1 := by rw [heq]; rfl
  rw [from_savedata, to_bytes_eq] at hlen
  simp [List.length_cons] at hlen

/-- **C10 (amended).** The forward direction holds: every buffer produced
by encoding a game state has its stored checksum equal to its calculated
checksum.  (The converse is false; see the counterexample.) -/
theorem c10_checksum_encode_amended (s : Savedata) (h : s.Valid) :
    checksum_embed (from_savedata s) = checksum_calculated (from_savedata s) :=
  to_bytes_checksum _

/-- Witness for the amended C10 at the all-zero game state. -/
theorem c10_checksum_encode_amended_witness :
    checksum_embed (from_savedata zeroSavedata) =
      checksum_calculated (from_savedata zeroSavedata) :=
  c10_checksum_encode_amended zeroSavedata
    ⟨by decide, by decide, by decide, by decide, by decide, by decide,
      ⟨by decide, by decide, by decide, by decide, by decide, by decide,
        by decide, by decide⟩, by decide, by decide⟩

lemma bitsToNatFrom_append (l l' : List Bool) (acc : Nat) :
    bitsToNatFrom acc (l ++ l') = bitsToNatFrom (bitsToNatFrom acc l) l' := by
  induction l generalizing acc with
  | nil => rfl
  | cons b t ih => simp [bitsToNatFrom, ih]

lemma bitsToNatFrom_eq (l : List Bool) (acc : Nat) :
    bitsToNatFrom acc l = acc * 2 ^ l.length + bitsToNat l := by
  induction l generalizing acc with
  | nil => simp [bitsToNatFrom, bitsToNat]
  | cons b t ih =>
      rw [bitsToNat, bitsToNatFrom, bitsToNatFrom, ih, ih (2 * 0 + b.toNat)]
      simp [List.length_cons, pow_succ]
      ring

lemma bitsToNat_append_bit (l : List Bool) (b : Bool) :
    bitsToNat (l ++ [b]) = 2 * bitsToNat l + b.toNat := by
  rw [bitsToNat, bitsToNatFrom_append]
  rfl

lemma length_natToBits (n v : Nat) : (natToBits n v).length = n := by
  induction n generalizing v with
  | zero => rfl
  | succ m ih => simp [natToBits, ih]

lemma bitsToNat_natToBits (n v : Nat) :
    bitsToNat (natToBits n v) = v % 2 ^ n := by
  induction n generalizing v with
  | zero =>
      simp [natToBits, bitsToNat, bitsToNatFrom]
      omega
  | succ m ih =>
      rw [natToBits, bitsToNat_append_bit, ih]
      have hmm : v % (2 * 2 ^ m) = v % 2 + 2 * (v / 2 % 2 ^ m) := Nat.mod_mul
      have hpow : (2 : Nat) ^ (m + 1) = 2 * 2 ^ m := by rw [pow_succ]; ring
      have htn : (decide (v % 2 = 1)).toNat = v % 2 := by
        rcases Nat.mod_two_eq_zero_or_one v with h | h <;> simp [h]
      rw [hpow, htn]
      omega

lemma natToBits_bitsToNat (l : List Bool) :
    natToBits l.length (bitsToNat l) = l := by
  induction l using List.reverseRecOn with
  | nil => rfl
  | append_singleton t b ih =>
      rw [bitsToNat_append_bit, List.length_append, List.length_singleton,
        natToBits]
      have hdiv : (2 * bitsToNat t + b.toNat) / 2 = bitsToNat t := by
        cases b <;> simp <;> omega
      have hmod : decide ((2 * bitsToNat t + b.toNat) % 2 = 1) = b := by
        cases b <;> simp <;> omega
      rw [hdiv, hmod, ih]

lemma deserialize_bits_append (l r : List Bool) (n : Nat) (h : l.length = n) :
    deserialize_bits (l ++ r) n = (bitsToNat l, r) := by
  rw [deserialize_bits, List.take_left' h, List.drop_left' h]

lemma read_natToBits8 (v : Nat) (r : List Bool) :
    deserialize_bits (natToBits 8 v ++ r) 8 = (v % 256, r) := by
  rw [deserialize_bits_append _ _ _ (length_natToBits 8 v), bitsToNat_natToBits]
  norm_num

lemma read_natToBits6 (v : Nat) (r : List Bool) :
    deserialize_bits (natToBits 6 v ++ r) 6 = (v % 64, r) := by
  rw [deserialize_bits_append _ _ _ (length_natToBits 6 v), bitsToNat_natToBits]
  norm_num

lemma read_natToBits4 (v : Nat) (r : List Bool) :
    deserialize_bits (natToBits 4 v ++ r) 4 = (v % 16, r) := by
  rw [deserialize_bits_append _ _ _ (length_natToBits 4 v), bitsToNat_natToBits]
  norm_num

lemma read_natToBits3 (v : Nat) (r : List Bool) :
    deserialize_bits (natToBits 3 v ++ r) 3 = (v % 8, r) := by
  rw [deserialize_bits_append _ _ _ (length_natToBits 3 v), bitsToNat_natToBits]
  norm_num

lemma read_natToBits2 (v : Nat) (r : List Bool) :
    deserialize_bits (natToBits 2 v ++ r) 2 = (v % 4, r) := by
  rw [deserialize_bits_append _ _ _ (length_natToBits 2 v), bitsToNat_natToBits]
  norm_num

lemma read_natToBits1 (v : Nat) (r : List Bool) :
    deserialize_bits (natToBits 1 v ++ r) 1 = (v % 2, r) := by
  rw [deserialize_bits_append _ _ _ (length_natToBits 1 v), bitsToNat_natToBits]
  norm_num

lemma read_spells (v : Spells) (r : List Bool) :
    deserialize_bits (serialize_spells v ++ r) 8 =
      (bitsToNat (serialize_spells v), r) :=
  deserialize_bits_append _ _ _ rfl

lemma read_events (v : Events) (r : List Bool) :
    deserialize_bits (serialize_events v ++ r) 8 =
      (bitsToNat (serialize_events v), r) :=
  deserialize_bits_append _ _ _ rfl

lemma read_treasures (v : Treasures) (r : List Bool) :
    deserialize_bits (serialize_treasures v ++ r) 5 =
      (bitsToNat (serialize_treasures v), r) :=
  deserialize_bits_append _ _ _ rfl

lemma read_minions (v : Minions) (r : List Bool) :
    deserialize_bits (serialize_minions v ++ r) 3 =
      (bitsToNat (serialize_minions v), r) :=
  deserialize_bits_append _ _ _ rfl

lemma read_bookmarks0 (v : Bookmarks) (r : List Bool) :
    deserialize_bits (serialize_bookmarks0 v ++ r) 8 =
      (bitsToNat (serialize_bookmarks0 v), r) :=
  deserialize_bits_append _ _ _ rfl

lemma read_bookmarks1 (v : Bookmarks) (r : List Bool) :
    deserialize_bits (serialize_bookmarks1 v ++ r) 2 =
      (bitsToNat (serialize_bookmarks1 v), r) :=
  deserialize_bits_append _ _ _ rfl

lemma nthBit_double_zero (a : Nat) (b : Bool) :
    nthBit (2 * a + b.toNat) 0 = b := by
  cases b <;> simp [nthBit] <;> omega

lemma nthBit_double_succ (a : Nat) (b : Bool) (k : Nat) :
    nthBit (2 * a + b.toNat) (k + 1) = nthBit a k := by
  have hdiv : (2 * a + b.toNat) / 2 ^ (k + 1) = a / 2 ^ k := by
    rw [pow_succ, Nat.mul_comm (2 ^ k) 2, ← Nat.div_div_eq_div_mul]
    congr 1
    cases b <;> simp <;> omega
  simp [nthBit, hdiv]

lemma unpack_serialize_spells (v : Spells) :
    unpack_spells (bitsToNat (serialize_spells v)) = v := by
  simp only [unpack_spells, serialize_spells, bitsToNat, bitsToNatFrom,
    nthBit_double_succ, nthBit_double_zero]

lemma unpack_serialize_events (v : Events) :
    unpack_events (bitsToNat (serialize_events v)) = v := by
  simp only [unpack_events, serialize_events, bitsToNat, bitsToNatFrom,
    nthBit_double_succ, nthBit_double_zero]

lemma unpack_serialize_treasures (v : Treasures) :
    unpack_treasures (bitsToNat (serialize_treasures v)) = v := by
  simp only [unpack_treasures, serialize_treasures, bitsToNat, bitsToNatFrom,
    nthBit_double_succ, nthBit_double_zero]

lemma unpack_serialize_minions (v : Minions) :
    unpack_minions (bitsToNat (serialize_minions v)) = v := by
  simp only [unpack_minions, serialize_minions, bitsToNat, bitsToNatFrom,
    nthBit_double_succ, nthBit_double_zero]

lemma unpack_serialize_bookmarks (v : Bookmarks) :
    unpack_bookmarks (bitsToNat (serialize_bookmarks0 v))
      (bitsToNat (serialize_bookmarks1 v)) = v := by
  simp only [unpack_bookmarks, serialize_bookmarks0, serialize_bookmarks1,
    bitsToNat, bitsToNatFrom, nthBit_double_succ, nthBit_double_zero]

lemma bitsToSymbols_len (l : List Bool) :
    (bitsToSymbols l).length = l.length / 6 := by
  induction l using bitsToSymbols.induct with
  | case1 b0 b1 b2 b3 b4 b5 rest ih =>
      simp [bitsToSymbols, ih]
      omega
  | case2 l h =>
      rcases l with _ | ⟨a, _ | ⟨b, _ | ⟨c, _ | ⟨d, _ | ⟨e, _ | ⟨f, r⟩⟩⟩⟩⟩⟩
      · simp [bitsToSymbols]
      · simp [bitsToSymbols]
      · simp [bitsToSymbols]
      · simp [bitsToSymbols]
      · simp [bitsToSymbols]
      · simp [bitsToSymbols]
      · exact absurd rfl (h a b c d e f r)

lemma natToBits6_chunk (b0 b1 b2 b3 b4 b5 : Bool) :
    natToBits 6 (bitsToNat [b0, b1, b2, b3, b4, b5]) =
      [b0, b1, b2, b3, b4, b5] :=
  natToBits_bitsToNat [b0, b1, b2, b3, b4, b5]

lemma flatten_bitsToSymbols (l : List Bool) (h : l.length % 6 = 0) :
    ((bitsToSymbols l).map (natToBits 6)).flatten = l := by
  induction l using bitsToSymbols.induct with
  | case1 b0 b1 b2 b3 b4 b5 rest ih =>
      have hr : rest.length % 6 = 0 := by
        simp [List.length_cons] at h
        omega
      simp only [bitsToSymbols, List.map_cons, List.flatten_cons,
        natToBits6_chunk, ih hr]
      rfl
  | case2 l hno =>
      rcases l with _ | ⟨a, _ | ⟨b, _ | ⟨c, _ | ⟨d, _ | ⟨e, _ | ⟨f, r⟩⟩⟩⟩⟩⟩
      · rfl
      · simp at h
      · simp at h
      · simp at h
      · simp at h
      · simp at h
      · exact absurd rfl (hno a b c d e f r)

lemma lor_shiftLeft_eight (a b : Nat) (ha : a < 256) :
    a ||| (b <<< 8) = a + 256 * b := by
  apply Nat.eq_of_testBit_eq
  intro i
  rw [Nat.testBit_lor, Nat.testBit_shiftLeft]
  rcases Nat.lt_or_ge i 8 with hi | hi
  · have hge : ¬ (i ≥ 8) := by omega
    have hkey : (a + 256 * b) / 2 ^ i % 2 = a / 2 ^ i % 2 := by
      have hpow : (2 : Nat) ^ i * 2 ^ (8 - i) = 256 := by
        rw [← pow_add, show i + (8 - i) = 8 from by omega]
        norm_num
      have hsplit : a + 256 * b = a + 2 ^ i * (2 ^ (8 - i) * b) := by
        rw [← Nat.mul_assoc, hpow]
      obtain ⟨d, hd⟩ : ∃ d, 2 ^ (8 - i) * b = 2 * d := by
        refine ⟨2 ^ (7 - i) * b, ?_⟩
        rw [← Nat.mul_assoc, show 8 - i = (7 - i) + 1 from by omega, pow_succ]
        ring_nf
      rw [hsplit, Nat.add_mul_div_left _ _ (Nat.two_pow_pos i), hd]
      omega
    simp [Nat.testBit_to_div_mod, hge, hkey]
  · have hzero : a / 2 ^ i = 0 := by
      apply Nat.div_eq_of_lt
      calc a < 256 := ha
        _ = 2 ^ 8 := by norm_num
        _ ≤ 2 ^ i := Nat.pow_le_pow_right (by norm_num) hi
    have hdiv : (a + 256 * b) / 2 ^ i = b / 2 ^ (i - 8) := by
      rw [show (2 : Nat) ^ i = 256 * 2 ^ (i - 8) from by
          rw [show (256 : Nat) = 2 ^ 8 from by norm_num, ← pow_add]
          congr 1
          omega,
        ← Nat.div_div_eq_div_mul]
      congr 1
      omega
    simp [Nat.testBit_to_div_mod, hi, hdiv, hzero]

lemma deserialize_serialize_equipment (e : Equipment) (r : List Bool) :
    deserialize_equipment (serialize_equipment e ++ r) =
      (⟨e.helm % 4, e.weapon % 16, e.armor % 16, e.shoes % 8,
        e.accessory0 % 4, e.accessory1 % 4, e.accessory2 % 2,
        e.accessory3 % 2⟩, r) := by
  simp only [deserialize_equipment, serialize_equipment, List.append_assoc,
    read_natToBits2, read_natToBits4, read_natToBits3, read_natToBits1]

lemma loop_reads_terminated (n : Nat) (inv : List Nat)
    (hit : ∀ x ∈ inv, 1 ≤ x ∧ x < 64) (hlen : inv.length < n)
    (rest : List Bool) :
    deserialize_inventory_loop n
        ((inv.map (natToBits 6)).flatten ++ (natToBits 6 0 ++ rest)) =
      (inv, rest) := by
  induction inv generalizing n with
  | nil =>
      obtain ⟨m, rfl⟩ : ∃ m, n = m + 1 := ⟨n - 1, by omega⟩
      simp [deserialize_inventory_loop, read_natToBits6]
  | cons x xs ih =>
      obtain ⟨m, rfl⟩ : ∃ m, n = m + 1 := ⟨n - 1, by omega⟩
      have hx := hit x (by simp)
      have hxs : ∀ y ∈ xs, 1 ≤ y ∧ y < 64 :=
        fun y hy => hit y (List.mem_cons_of_mem _ hy)
      rw [deserialize_inventory_loop]
      simp only [List.map_cons, List.flatten_cons, List.append_assoc,
        read_natToBits6]
      rw [Nat.mod_eq_of_lt hx.2]
      rw [if_neg (by omega)]
      rw [ih m hxs (by simp only [List.length_cons] at hlen; omega)]

lemma loop_reads_exact (inv : List Nat) (hit : ∀ x ∈ inv, 1 ≤ x ∧ x < 64)
    (rest : List Bool) :
    deserialize_inventory_loop inv.length
        ((inv.map (natToBits 6)).flatten ++ rest) =
      (inv, rest) := by
  induction inv with
  | nil => simp [deserialize_inventory_loop]
  | cons x xs ih =>
      have hx := hit x (by simp)
      have hxs : ∀ y ∈ xs, 1 ≤ y ∧ y < 64 :=
        fun y hy => hit y (List.mem_cons_of_mem _ hy)
      rw [List.length_cons, deserialize_inventory_loop]
      simp only [List.map_cons, List.flatten_cons, List.append_assoc,
        read_natToBits6]
      rw [Nat.mod_eq_of_lt hx.2]
      rw [if_neg (by omega)]
      rw [ih hxs]

lemma deserialize_serialize_inventory (inv : List Nat)
    (hlen : inv.length ≤ 8) (hit : ∀ x ∈ inv, 1 ≤ x ∧ x < 64)
    (tail : List Bool) :
    deserialize_inventory (serialize_inventory inv ++ tail) = (inv, tail) := by
  rw [deserialize_inventory, serialize_inventory]
  by_cases hfull : inv.length < 8
  · rw [if_pos hfull, List.append_assoc]
    exact loop_reads_terminated 8 inv hit hfull tail
  · have h8 : inv.length = 8 := by omega
    rw [if_neg hfull, List.append_nil, ← h8]
    exact loop_reads_exact inv hit tail

lemma flatten_map_natToBits6_length (inv : List Nat) :
    ((inv.map (natToBits 6)).flatten).length = 6 * inv.length := by
  induction inv with
  | nil => rfl
  | cons x xs ih =>
      simp only [List.map_cons, List.flatten_cons, List.length_append,
        length_natToBits, ih, List.length_cons]
      omega

lemma serializeBits_length_le (s : Savedata) (h8 : s.inventory.length ≤ 8) :
    (serializeBits s).length ≤ 159 := by
  simp only [serializeBits, serialize_spells, serialize_events,
    serialize_treasures, serialize_minions, serialize_bookmarks0,
    serialize_bookmarks1, serialize_equipment, serialize_inventory,
    List.length_append, length_natToBits, List.length_cons,
    List.length_nil, flatten_map_natToBits6_length, apply_ite List.length]
  split_ifs <;> omega

lemma from_bytes_to_bytes (bits : List Bool) (hle : bits.length ≤ 159) :
    from_bytes (to_bytes bits) =
      bits ++
        (List.replicate ((bits.length + 5) / 6 * 6 - bits.length) false ++
          List.replicate (162 - (bits.length + 5) / 6 * 6) true) := by
  set padded :=
    bits ++ List.replicate ((bits.length + 5) / 6 * 6 - bits.length) false
    with hpadded
  have hplen : padded.length = (bits.length + 5) / 6 * 6 := by
    rw [hpadded]
    simp only [List.length_append, List.length_replicate]
    omega
  have hmod : padded.length % 6 = 0 := by rw [hplen]; omega
  have hsyms : (bitsToSymbols padded).length ≤ 27 := by
    rw [bitsToSymbols_len, hplen]
    omega
  have hdrop : (to_bytes bits).drop 2 = bitsToSymbols padded := by
    rw [to_bytes_eq]
    rfl
  simp only [from_bytes, hdrop, List.take_of_length_le hsyms,
    flatten_bitsToSymbols padded hmod]
  rw [hplen, hpadded, List.append_assoc]

set_option maxHeartbeats 2000000 in
lemma deserialize_serializeBits (s : Savedata) (h : s.Valid)
    (tail : List Bool) :
    deserialize_savedata (serializeBits s ++ tail) = s := by
  obtain ⟨hxp, hpurse, hdep, hage, hat, hresp, hequip, hinvlen, hinvit⟩ := h
  obtain ⟨hh, hw, har, hsh, ha0, ha1, ha2, ha3⟩ := hequip
  rw [serializeBits]
  simp only [List.append_assoc]
  rw [deserialize_savedata]
  simp only [read_natToBits8, read_natToBits6, read_natToBits4,
    read_spells, read_treasures, read_minions, read_bookmarks0,
    read_bookmarks1, read_events,
    deserialize_serialize_equipment,
    deserialize_serialize_inventory s.inventory hinvlen hinvit,
    unpack_serialize_spells, unpack_serialize_events,
    unpack_serialize_treasures, unpack_serialize_minions,
    unpack_serialize_bookmarks]
  have hxp2 : s.xp % 256 % 256 ||| (s.xp / 256 % 256) <<< 8 = s.xp := by
    rw [show s.xp % 256 % 256 = s.xp % 256 from by omega,
      show s.xp / 256 % 256 = s.xp / 256 from by omega,
      lor_shiftLeft_eight _ _ (by omega)]
    omega
  have hpurse2 : s.purse % 256 % 256 ||| (s.purse / 256 % 256) <<< 8 =
      s.purse := by
    rw [show s.purse % 256 % 256 = s.purse % 256 from by omega,
      show s.purse / 256 % 256 = s.purse / 256 from by omega,
      lor_shiftLeft_eight _ _ (by omega)]
    omega
  exact Savedata.ext hxp2 hpurse2 (Nat.mod_eq_of_lt hdep)
    (Nat.mod_eq_of_lt hage) (Nat.mod_eq_of_lt hat) rfl rfl rfl rfl rfl
    (Nat.mod_eq_of_lt hresp)
    (Equipment.ext (Nat.mod_eq_of_lt hh) (Nat.mod_eq_of_lt hw)
      (Nat.mod_eq_of_lt har) (Nat.mod_eq_of_lt hsh) (Nat.mod_eq_of_lt ha0)
      (Nat.mod_eq_of_lt ha1) (Nat.mod_eq_of_lt ha2) (Nat.mod_eq_of_lt ha3))
    rfl

/-- **C9.** Serializing a game state and deserializing the resulting
buffer reproduces the state exactly, including the inventory order and
length via the zero-terminator convention. -/
theorem c9_savedata_roundtrip (s : Savedata) (h : s.Valid) :
    to_savedata (from_savedata s) = some s := by
  have hlen : (serializeBits s).length ≤ 159 :=
    serializeBits_length_le s h.2.2.2.2.2.2.2.1
  have hok : checksum_is_ok (from_savedata s) = true :=
    to_bytes_checksum_is_ok (serializeBits s)
  rw [to_savedata, if_pos hok]
  rw [from_savedata, from_bytes_to_bytes _ hlen, deserialize_serializeBits s h]

/-- Witness for C9 at the normalized ふ game state. -/
theorem c9_savedata_roundtrip_witness :
    to_savedata (from_savedata fuSavedata.normalize) =
      some fuSavedata.normalize :=
  c9_savedata_roundtrip fuSavedata.normalize
    ⟨by decide, by decide, by decide, by decide, by decide, by decide,
      ⟨by decide, by decide, by decide, by decide, by decide, by decide,
        by decide, by decide⟩, by decide, by decide⟩
